import Mathlib

/-!
Verification of the `serial_ecs` codec core.

This file gives a shallow embedding of the repository's Rust sources
(`value.rs`, `entity.rs`, `component.rs`, `world.rs`, `encode.rs`,
`decode.rs`) and proves properties of the embedding.

Modelling conventions:
  * machine integers (`u8`/`u16`/`u32`/`u64`/`i8`..`i64`/`usize`) are `Nat`
    or `Int` with explicit `% 2^w` / range side-conditions where the Rust
    code casts or checks;
  * a byte stream is a `List Nat` of values `< 256`;
  * the generic `io::Write` sink of `encode::State<W>` is a `Sink σ`:
    a state type `σ` with a `write` that returns the next state and a
    success flag (`false` models an I/O error from the sink).  Encoders
    live in `EncM σ`, where `none` models a Rust panic (the
    `panic!("... too large")` branches) and `some (s, ok)` models normal
    return with `ok = false` for a propagated `io::Error`;
  * the `io::Read` source of `decode::State<R>` is specialised to an
    in-memory byte list; decoders return `Option (α × List Nat)` (the
    decoded value and the remaining bytes).  Decode-error payloads
    (expected/actual descriptions, byte offsets) are collapsed to `none`
    since no claim inspects them;
  * `f32`/`f64` values are carried as their bit patterns (`Nat`); the two
    IEEE-754 conversions and `f64` equality used by `encode_value` /
    `decode_value` are supplied by an abstract `FloatModel` parameter;
  * Rust `FnMut(&mut EntityId)` transforms are modelled as pure
    `EntityId → EntityId` functions (every transform constructed by the
    repository, in particular the rewrite closure of `encode_world`, is
    stateless).
-/

namespace SerialEcs

/-! ### Bytes and fixed-width integers (`decode.rs` / `encode.rs` helpers) -/

/-- Big-endian byte list of width `w` of a natural number,
modelling `to_be_bytes` on a `w`-byte unsigned integer. -/
def beBytes : Nat → Nat → List Nat
  | 0, _ => []
  | w + 1, x => beBytes w (x / 256) ++ [x % 256]

/-- Two's-complement unsigned image of a `w`-byte signed integer,
modelling `to_be_bytes` of `i8`/`i16`/`i32`/`i64` composed with `beBytes`. -/
def toU (w : Nat) (i : Int) : Nat := (i % ((2 : Int) ^ (8 * w))).toNat

/-- Signed reading of a `w`-byte unsigned value,
modelling `from_be_bytes` for `i8`/`i16`/`i32`/`i64`. -/
def fromI (w : Nat) (n : Nat) : Int :=
  if n < 2 ^ (8 * w - 1) then (n : Int) else (n : Int) - 2 ^ (8 * w)

/-- `decode_u8` of `decode.rs`: one byte from the stream. -/
def decode_u8 : List Nat → Option (Nat × List Nat)
  | b :: r => some (b, r)
  | [] => none

/-- `decode_u16` of `decode.rs`: two big-endian bytes. -/
def decode_u16 : List Nat → Option (Nat × List Nat)
  | a :: b :: r => some (a * 256 + b, r)
  | _ => none

/-- `decode_u24` of `decode.rs`: three big-endian bytes, zero-padded. -/
def decode_u24 : List Nat → Option (Nat × List Nat)
  | a :: b :: c :: r => some ((a * 256 + b) * 256 + c, r)
  | _ => none

/-- `decode_u32` of `decode.rs`: four big-endian bytes. -/
def decode_u32 : List Nat → Option (Nat × List Nat)
  | a :: b :: c :: d :: r => some (((a * 256 + b) * 256 + c) * 256 + d, r)
  | _ => none

/-- `decode_u64` (used via `decode_i64` / `decode_f64`): eight big-endian bytes. -/
def decode_u64 : List Nat → Option (Nat × List Nat)
  | a :: b :: c :: d :: e :: f :: g :: h :: r =>
    some ((((((((a * 256 + b) * 256 + c) * 256 + d) * 256 + e) * 256 + f)
      * 256 + g) * 256 + h), r)
  | _ => none

/-- `decode_i8` of `decode.rs`. -/
def decode_i8 (bs : List Nat) : Option (Int × List Nat) :=
  (decode_u8 bs).map fun p => (fromI 1 p.1, p.2)

/-- `decode_i16` of `decode.rs`. -/
def decode_i16 (bs : List Nat) : Option (Int × List Nat) :=
  (decode_u16 bs).map fun p => (fromI 2 p.1, p.2)

/-- `decode_i32` of `decode.rs`. -/
def decode_i32 (bs : List Nat) : Option (Int × List Nat) :=
  (decode_u32 bs).map fun p => (fromI 4 p.1, p.2)

/-- `decode_i64` of `decode.rs`. -/
def decode_i64 (bs : List Nat) : Option (Int × List Nat) :=
  (decode_u64 bs).map fun p => (fromI 8 p.1, p.2)

/-! ### The dynamic value type (`value.rs`) -/

/-- `EntityId` of `value.rs`.  `Idx` carries a `u32`. -/
inductive EntityId where
  | Invalid : EntityId
  | Idx : Nat → EntityId
  deriving DecidableEq, Repr

/-- `Value` of `value.rs`.  `Int` carries an `i64`; `Float` carries the
bit pattern of an `f64`; `Bytes` carries raw bytes. -/
inductive Value where
  | Bool : Bool → Value
  | Int : Int → Value
  | Float : Nat → Value
  | Bytes : List Nat → Value
  | Array : List Value → Value
  | Maybe : Option Value → Value
  | EntityId : EntityId → Value

/-- The floating-point primitives `encode_value` / `decode_value` rely on:
`f64ToF32`/`f32ToF64` are the IEEE-754 conversions on bit patterns
(`x as f32` / `x_f32 as f64` in `value.rs`), `feq` is `f64` equality. -/
structure FloatModel where
  f64ToF32 : Nat → Nat
  f32ToF64 : Nat → Nat
  feq : Nat → Nat → Bool

/-! ### Value decoding (`value.rs`, `decode_value`)

The Rust decoder recurses on the shrinking byte stream; the embedding
makes this explicit with a fuel parameter (one unit per `decode_value`
call).  The wrapper `decode_value` supplies `length + 1` fuel, which is
sufficient since every call consumes at least one byte. -/

/-- `decode_bytes` of `value.rs`: read `len` raw bytes. -/
def decode_bytesN : Nat → List Nat → Option (List Nat × List Nat)
  | 0, bs => some ([], bs)
  | _ + 1, [] => none
  | n + 1, b :: r => (decode_bytesN n r).map fun p => (b :: p.1, p.2)

/-- The loop of `decode_array` of `value.rs`: decode `n` values with the
given single-value decoder. -/
def decode_valuesGo (dv : List Nat → Option (Value × List Nat)) :
    Nat → List Nat → Option (List Value × List Nat)
  | 0, bs => some ([], bs)
  | n + 1, bs => do
    let (v, r1) ← dv bs
    let (vs, r2) ← decode_valuesGo dv n r1
    some (v :: vs, r2)

/-- `decode_value` of `value.rs` (fuelled form): dispatch on the tag byte. -/
def decode_valueF (fm : FloatModel) : Nat → List Nat → Option (Value × List Nat)
  | 0, _ => none
  | fuel + 1, bs =>
    match bs with
    | [] => none
    | b :: r =>
      if b < 0x80 then some (.Int b, r)
      else if b < 0x90 then
        (decode_bytesN (b - 0x80) r).map fun p => (.Bytes p.1, p.2)
      else if b < 0xa0 then
        (decode_valuesGo (decode_valueF fm fuel) (b - 0x90) r).map
          fun p => (.Array p.1, p.2)
      else if b = 0xa0 then do
        let (len, r1) ← decode_u8 r
        (decode_bytesN len r1).map fun p => (.Bytes p.1, p.2)
      else if b = 0xa1 then do
        let (len, r1) ← decode_u32 r
        (decode_bytesN len r1).map fun p => (.Bytes p.1, p.2)
      else if b = 0xa2 then do
        let (len, r1) ← decode_u8 r
        (decode_valuesGo (decode_valueF fm fuel) len r1).map
          fun p => (.Array p.1, p.2)
      else if b = 0xa3 then do
        let (len, r1) ← decode_u32 r
        (decode_valuesGo (decode_valueF fm fuel) len r1).map
          fun p => (.Array p.1, p.2)
      else if b = 0xa4 then some (.Bool false, r)
      else if b = 0xa5 then some (.Bool true, r)
      else if b = 0xa6 then
        (decode_u32 r).map fun p => (.Float (fm.f32ToF64 p.1), p.2)
      else if b = 0xa7 then
        (decode_u64 r).map fun p => (.Float p.1, p.2)
      else if b = 0xa8 then (decode_i8 r).map fun p => (.Int p.1, p.2)
      else if b = 0xa9 then (decode_i16 r).map fun p => (.Int p.1, p.2)
      else if b = 0xaa then (decode_i32 r).map fun p => (.Int p.1, p.2)
      else if b = 0xab then (decode_i64 r).map fun p => (.Int p.1, p.2)
      else if b = 0xac then some (.Maybe none, r)
      else if b = 0xad then
        (decode_valueF fm fuel r).map fun p => (.Maybe (some p.1), p.2)
      else if b = 0xae then
        (decode_u8 r).map fun p => (.EntityId (.Idx p.1), p.2)
      else if b = 0xaf then
        (decode_u16 r).map fun p => (.EntityId (.Idx p.1), p.2)
      else if b = 0xb0 then
        (decode_u32 r).map fun p => (.EntityId (.Idx p.1), p.2)
      else if b = 0xb1 then some (.EntityId .Invalid, r)
      else if b < 0xc0 then none
      else some (.EntityId (.Idx (b - 0xc0)), r)

/-- `decode_value` of `value.rs`, with enough fuel for its input. -/
def decode_value (fm : FloatModel) (bs : List Nat) : Option (Value × List Nat) :=
  decode_valueF fm (bs.length + 1) bs

/-! ### The encode monad (`encode.rs`)

`encode::State<W>` wraps a generic `io::Write`; every encoder returns
`io::Result<()>`.  `Sink σ` models the writer `W` (state plus success
flag per write); `EncM σ` models an encoder body, with `none` for a
panic and `some (s, ok)` for an `io::Result` return. -/

/-- A writable byte sink: `write` consumes the bytes of one
`self.write(..)`/`write_fmt(..)` call and reports success. -/
structure Sink (σ : Type) where
  write : σ → List Nat → σ × Bool

/-- The type of encoder computations over sink state `σ`. -/
def EncM (σ : Type) := σ → Option (σ × Bool)

/-- Sequencing with `?`-propagation: run `m2` only if `m1` returned `Ok`. -/
def eseq {σ : Type} (m1 m2 : EncM σ) : EncM σ := fun s =>
  match m1 s with
  | none => none
  | some (s1, true) => m2 s1
  | some (s1, false) => some (s1, false)

/-- Sequencing that *drops* the first result (`entity.rs` line 235 calls
`self.encode_entity_data(entry);` without `?`, discarding its
`io::Result`). -/
def dropseq {σ : Type} (m1 m2 : EncM σ) : EncM σ := fun s =>
  match m1 s with
  | none => none
  | some (s1, _) => m2 s1

/-- `Ok(())`. -/
def eok {σ : Type} : EncM σ := fun s => some (s, true)

/-- An unconditional panic (`panic!(..)` in `value.rs`). -/
def epanic {σ : Type} : EncM σ := fun _ => none

/-- One `self.write(..)` / `self.write_fmt(..)` call. -/
def wr {σ : Type} (sink : Sink σ) (bs : List Nat) : EncM σ := fun s =>
  some (sink.write s bs)

/-! ### Value encoding (`value.rs`, `encode_value`) -/

mutual

/-- `encode_value` of `value.rs`.  `t` is the caller-supplied
`e_id_transform`, applied to the id immediately before serialization. -/
def encode_value {σ : Type} (fm : FloatModel) (sink : Sink σ)
    (t : EntityId → EntityId) : Value → EncM σ
  | .Bool false => wr sink [0xa4]
  | .Bool true => wr sink [0xa5]
  | .Int i =>
    -- fit the number into as small a representation as possible
    if 0 ≤ i ∧ i < 0x80 then wr sink [i.toNat]
    else if -0x80 ≤ i ∧ i ≤ 0x7f then
      eseq (wr sink [0xa8]) (wr sink (beBytes 1 (toU 1 i)))
    else if -0x8000 ≤ i ∧ i ≤ 0x7fff then
      eseq (wr sink [0xa9]) (wr sink (beBytes 2 (toU 2 i)))
    else if -0x80000000 ≤ i ∧ i ≤ 0x7fffffff then
      eseq (wr sink [0xaa]) (wr sink (beBytes 4 (toU 4 i)))
    else
      eseq (wr sink [0xab]) (wr sink (beBytes 8 (toU 8 i)))
  | .Float x =>
    -- represent the float with only 32 bits if possible
    if fm.feq (fm.f32ToF64 (fm.f64ToF32 x)) x then
      eseq (wr sink [0xa6]) (wr sink (beBytes 4 (fm.f64ToF32 x)))
    else
      eseq (wr sink [0xa7]) (wr sink (beBytes 8 x))
  | .Bytes bs =>
    eseq
      (if bs.length < 0x100 then
        (if bs.length < 0x10 then wr sink [0x80 + bs.length]
         else wr sink [0xa0, bs.length])
       else if bs.length < 0x100000000 then
        eseq (wr sink [0xa1]) (wr sink (beBytes 4 bs.length))
       else epanic)
      (wr sink bs)
  | .Array vs =>
    eseq
      (if vs.length < 0x100 then
        (if vs.length < 0x10 then wr sink [0x90 + vs.length]
         else wr sink [0xa2, vs.length])
       else if vs.length < 0x100000000 then
        -- (sic) the source writes tag 0xa2 here as well, not 0xa3
        eseq (wr sink [0xa2]) (wr sink (beBytes 4 vs.length))
       else epanic)
      (encode_values fm sink t vs)
  | .Maybe none => wr sink [0xac]
  | .Maybe (some v) => eseq (wr sink [0xad]) (encode_value fm sink t v)
  | .EntityId id =>
    match t id with
    | .Idx i =>
      if i < 0x100 then
        (if i < 0x40 then wr sink [0xc0 + i] else wr sink [0xae, i])
      else if i < 0x10000 then
        eseq (wr sink [0xaf]) (wr sink (beBytes 2 i))
      else
        eseq (wr sink [0xb0]) (wr sink (beBytes 4 i))
    | .Invalid => wr sink [0xb1]

/-- The element loop of the `Value::Array` arm of `encode_value`. -/
def encode_values {σ : Type} (fm : FloatModel) (sink : Sink σ)
    (t : EntityId → EntityId) : List Value → EncM σ
  | [] => eok
  | v :: vs => eseq (encode_value fm sink t v) (encode_values fm sink t vs)

end

/-! ### Component indices (`entity.rs`) -/

/-- `ComponentIdx` of `entity.rs`: `id` is a `u16`, `idx` a `u32`. -/
structure ComponentIdx where
  id : Nat
  idx : Nat
  deriving DecidableEq, Repr

/-- `IdScale` of `entity.rs`. -/
inductive IdScale where
  | U6 : Nat → IdScale
  | U8 : Nat → IdScale
  | U16 : Nat → IdScale

/-- `IdxScale` of `entity.rs`. -/
inductive IdxScale where
  | Zero : IdxScale
  | U8 : Nat → IdxScale
  | U16 : Nat → IdxScale
  | U24 : Nat → IdxScale
  | U32 : Nat → IdxScale

/-- `IdScale::from_id` of `entity.rs`. -/
def IdScale.from_id (id : Nat) : IdScale :=
  if id < 0x100 then (if id < 0x40 then .U6 id else .U8 id) else .U16 id

/-- `IdxScale::from_idx` of `entity.rs`. -/
def IdxScale.from_idx (idx : Nat) : IdxScale :=
  if idx < 0x100 then (if idx = 0 then .Zero else .U8 idx)
  else if idx < 0x10000 then .U16 idx
  else if idx < 0x1000000 then .U24 idx
  else .U32 idx

/-- `decode_component_idx` of `entity.rs`: dispatch on the tag byte. -/
def decode_component_idx (bs : List Nat) : Option (ComponentIdx × List Nat) :=
  match bs with
  | [] => none
  | b :: r =>
    if b < 0x40 then
      (decode_u8 r).map fun p => (⟨b, p.1⟩, p.2)
    else if b < 0x80 then
      (decode_u16 r).map fun p => (⟨b - 0x40, p.1⟩, p.2)
    else if b = 0x80 then do
      let (id, r1) ← decode_u8 r
      (decode_u8 r1).map fun p => (⟨id, p.1⟩, p.2)
    else if b = 0x81 then do
      let (id, r1) ← decode_u8 r
      (decode_u16 r1).map fun p => (⟨id, p.1⟩, p.2)
    else if b = 0x82 then do
      let (id, r1) ← decode_u8 r
      (decode_u24 r1).map fun p => (⟨id, p.1⟩, p.2)
    else if b = 0x83 then do
      let (id, r1) ← decode_u8 r
      (decode_u32 r1).map fun p => (⟨id, p.1⟩, p.2)
    else if b = 0x84 then do
      let (id, r1) ← decode_u16 r
      (decode_u8 r1).map fun p => (⟨id, p.1⟩, p.2)
    else if b = 0x85 then do
      let (id, r1) ← decode_u16 r
      (decode_u16 r1).map fun p => (⟨id, p.1⟩, p.2)
    else if b = 0x86 then do
      let (id, r1) ← decode_u16 r
      (decode_u24 r1).map fun p => (⟨id, p.1⟩, p.2)
    else if b = 0x87 then do
      let (id, r1) ← decode_u16 r
      (decode_u32 r1).map fun p => (⟨id, p.1⟩, p.2)
    else if b = 0x88 then
      (decode_u8 r).map fun p => (⟨p.1, 0⟩, p.2)
    else if b = 0x89 then
      (decode_u16 r).map fun p => (⟨p.1, 0⟩, p.2)
    else if b < 0xc0 then none
    else some (⟨b - 0xc0, 0⟩, r)

/-- `encode_component_idx` of `entity.rs`: classify `id` and `idx`, then
emit the matching tag form (each `wi!(..)` is one `write` of the
big-endian bytes of its argument). -/
def encode_component_idx {σ : Type} (sink : Sink σ) (ci : ComponentIdx) :
    EncM σ :=
  match IdScale.from_id ci.id, IdxScale.from_idx ci.idx with
  | .U6 a, .Zero => wr sink (beBytes 1 (0xc0 + a))
  | .U6 a, .U8 b => eseq (wr sink (beBytes 1 a)) (wr sink (beBytes 1 b))
  | .U6 a, .U16 b =>
    eseq (wr sink (beBytes 1 (0x40 + a))) (wr sink (beBytes 2 b))
  | .U6 a, .U24 b =>
    eseq (wr sink (beBytes 1 0x82))
      (eseq (wr sink (beBytes 1 a)) (wr sink (beBytes 3 b)))
  | .U6 a, .U32 b =>
    eseq (wr sink (beBytes 1 0x83))
      (eseq (wr sink (beBytes 1 a)) (wr sink (beBytes 4 b)))
  | .U8 a, .Zero => eseq (wr sink (beBytes 1 0x88)) (wr sink (beBytes 1 a))
  | .U8 a, .U8 b =>
    eseq (wr sink (beBytes 1 0x80))
      (eseq (wr sink (beBytes 1 a)) (wr sink (beBytes 1 b)))
  | .U8 a, .U16 b =>
    eseq (wr sink (beBytes 1 0x81))
      (eseq (wr sink (beBytes 1 a)) (wr sink (beBytes 2 b)))
  | .U8 a, .U24 b =>
    eseq (wr sink (beBytes 1 0x82))
      (eseq (wr sink (beBytes 1 a)) (wr sink (beBytes 3 b)))
  | .U8 a, .U32 b =>
    eseq (wr sink (beBytes 1 0x83))
      (eseq (wr sink (beBytes 1 a)) (wr sink (beBytes 4 b)))
  | .U16 a, .Zero => eseq (wr sink (beBytes 1 0x89)) (wr sink (beBytes 2 a))
  | .U16 a, .U8 b =>
    eseq (wr sink (beBytes 1 0x84))
      (eseq (wr sink (beBytes 2 a)) (wr sink (beBytes 1 b)))
  | .U16 a, .U16 b =>
    eseq (wr sink (beBytes 1 0x85))
      (eseq (wr sink (beBytes 2 a)) (wr sink (beBytes 2 b)))
  | .U16 a, .U24 b =>
    eseq (wr sink (beBytes 1 0x86))
      (eseq (wr sink (beBytes 2 a)) (wr sink (beBytes 3 b)))
  | .U16 a, .U32 b =>
    eseq (wr sink (beBytes 1 0x87))
      (eseq (wr sink (beBytes 2 a)) (wr sink (beBytes 4 b)))

/-! ### Entities (`entity.rs`) -/

/-- `EntityData` of `entity.rs`. -/
structure EntityData where
  is_deleted : Bool
  components : List ComponentIdx

/-- `EntityArray` of `entity.rs`. -/
structure EntityArray where
  entries : List EntityData

/-- The counting loop of `EntityArray::packed_idxs`. -/
def packed_idxsGo : List EntityData → Nat → List (Option Nat)
  | [], _ => []
  | e :: es, i =>
    if e.is_deleted then none :: packed_idxsGo es i
    else some i :: packed_idxsGo es (i + 1)

/-- `EntityArray::packed_idxs` of `entity.rs`: `None` at deleted entries,
`Some i` elsewhere with `i` counting up from 0. -/
def EntityArray.packed_idxs (a : EntityArray) : List (Option Nat) :=
  packed_idxsGo a.entries 0

/-- The component-index loop of `encode_entity_data`. -/
def encode_component_idxs {σ : Type} (sink : Sink σ) :
    List ComponentIdx → EncM σ
  | [] => eok
  | c :: cs => eseq (encode_component_idx sink c) (encode_component_idxs sink cs)

/-- `encode_entity_data` of `entity.rs`: the component count as one byte
(0–254), or `0xff` plus a `u16` (the `len as u16` cast truncates mod
2^16; the guarding `debug_assert!` is compiled out in release builds),
then the component indices. -/
def encode_entity_data {σ : Type} (sink : Sink σ) (d : EntityData) : EncM σ :=
  eseq
    (if d.components.length < 0xff then wr sink [d.components.length]
     else eseq (wr sink [0xff])
       (wr sink (beBytes 2 (d.components.length % 0x10000))))
    (encode_component_idxs sink d.components)

/-- ASCII bytes of a decimal numeral, modelling `Display` formatting of an
unsigned integer inside `write_fmt`.  The fuel argument (any bound of the
digit count, here the number itself) keeps the recursion structural. -/
def decimalGo : Nat → Nat → List Nat
  | 0, _ => []
  | fuel + 1, n =>
    if n < 10 then [48 + n] else decimalGo fuel (n / 10) ++ [48 + n % 10]

/-- Decimal ASCII rendering of a natural number. -/
def decimal (n : Nat) : List Nat := decimalGo (n + 1) n

/-- UTF-8/ASCII bytes of a Lean string (component and field names). -/
def strBytes (s : String) : List Nat := s.data.map Char.toNat

/-- The per-entity loop of `encode_entity_array`: deleted entities are
skipped (`continue`); for the rest `encode_entity_data`'s `io::Result`
is *discarded* (no `?` on the call), modelled by `dropseq`. -/
def encode_entity_loop {σ : Type} (sink : Sink σ) : List EntityData → EncM σ
  | [] => eok
  | e :: es =>
    if e.is_deleted then encode_entity_loop sink es
    else dropseq (encode_entity_data sink e) (encode_entity_loop sink es)

/-- `encode_entity_array` of `entity.rs`: `write_fmt("ENTITIES {}\n", len)`
with `len` the number of non-deleted entries, then the entity loop. -/
def encode_entity_array {σ : Type} (sink : Sink σ) (a : EntityArray) : EncM σ :=
  eseq
    (wr sink (strBytes "ENTITIES " ++
      decimal (a.entries.countP (fun e => !e.is_deleted)) ++ [10]))
    (encode_entity_loop sink a.entries)

/-! ### Component arrays and the global component (`component.rs`) -/

/-- `ComponentArray` of `component.rs`: `id` is a `u16`. -/
structure ComponentArray where
  name : String
  id : Nat
  scheme : List String
  values : List Value

/-- `GlobalComponent` of `component.rs`. -/
structure GlobalComponent where
  scheme : List String
  values : List Value

/-- `ComponentRef` of `component.rs` (also standing in for `ComponentMut`,
whose only difference is Rust mutability). -/
structure ComponentRef where
  scheme : List String
  values : List Value

/-- Rust `u32::checked_mul`. -/
def checked_mul_u32 (a b : Nat) : Option Nat :=
  if a * b < 0x100000000 then some (a * b) else none

/-- Rust `u32::checked_add`. -/
def checked_add_u32 (a b : Nat) : Option Nat :=
  if a + b < 0x100000000 then some (a + b) else none

/-- Rust slice `get(start..stop)`: `Some` iff `start ≤ stop ≤ len`. -/
def slice_get {α : Type} (l : List α) (start stop : Nat) : Option (List α) :=
  if start ≤ stop ∧ stop ≤ l.length then some ((l.drop start).take (stop - start))
  else none

/-- `ComponentArray::get` of `component.rs`.  `idx` is a `u32`;
`scheme.len() as u32` is the truncating cast; all arithmetic is checked,
so the embedding is total (the Rust code cannot panic here). -/
def ComponentArray.get (c : ComponentArray) (idx : Nat) : Option ComponentRef :=
  let scheme_len := c.scheme.length % 0x100000000
  if scheme_len = 0 ∧ idx ≠ 0 then none
  else do
    let start ← checked_mul_u32 idx scheme_len
    let idx1 ← checked_add_u32 idx 1
    let stop ← checked_mul_u32 idx1 scheme_len
    let vals ← slice_get c.values start stop
    some ⟨c.scheme, vals⟩

/-- `ComponentArray::get_mut` of `component.rs` (same arithmetic as `get`,
returning the mutable view). -/
def ComponentArray.get_mut (c : ComponentArray) (idx : Nat) :
    Option ComponentRef :=
  let scheme_len := c.scheme.length % 0x100000000
  if scheme_len = 0 ∧ idx ≠ 0 then none
  else do
    let start ← checked_mul_u32 idx scheme_len
    let idx1 ← checked_add_u32 idx 1
    let stop ← checked_mul_u32 idx1 scheme_len
    let vals ← slice_get c.values start stop
    some ⟨c.scheme, vals⟩

/-- The field-name loop shared by `encode_component_array` and
`encode_global_component`: `write(b" ")` then the name bytes, per field. -/
def write_fields {σ : Type} (sink : Sink σ) : List String → EncM σ
  | [] => eok
  | f :: fs =>
    eseq (eseq (wr sink [32]) (wr sink (strBytes f))) (write_fields sink fs)

/-- `encode_component_array` of `component.rs`: the header
`write_fmt("COMPONENT {} {} {}", name, id, len)` with
`len = values.len().checked_div(scheme.len()).unwrap_or(0)` (Nat division
by zero is 0, exactly `unwrap_or(0)`), the scheme fields, a newline, then
every value under the caller's entity-id transform. -/
def encode_component_array {σ : Type} (fm : FloatModel) (sink : Sink σ)
    (t : EntityId → EntityId) (c : ComponentArray) : EncM σ :=
  eseq
    (wr sink (strBytes "COMPONENT " ++ strBytes c.name ++ [32] ++
      decimal c.id ++ [32] ++ decimal (c.values.length / c.scheme.length)))
    (eseq (write_fields sink c.scheme)
      (eseq (wr sink [10]) (encode_values fm sink t c.values)))

/-- `encode_global_component` of `component.rs`. -/
def encode_global_component {σ : Type} (fm : FloatModel) (sink : Sink σ)
    (t : EntityId → EntityId) (g : GlobalComponent) : EncM σ :=
  eseq (wr sink (strBytes "GLOBAL"))
    (eseq (write_fields sink g.scheme)
      (eseq (wr sink [10]) (encode_values fm sink t g.values)))

/-! ### The world (`world.rs`) -/

/-- `World` of `world.rs`.  The `VecMap<ComponentArray>` is modelled by its
backing vector: a list of optional arrays indexed by component id. -/
structure World where
  components : List (Option ComponentArray)
  global : GlobalComponent
  entities : EntityArray

/-- `VecMap::iter().next_back()` key: the index of the last present entry,
with `unwrap_or(0)` when the map is empty. -/
def lastSomeIdxGo {α : Type} : List (Option α) → Nat → Nat → Nat
  | [], _, acc => acc
  | some _ :: rest, i, _ => lastSomeIdxGo rest (i + 1) i
  | none :: rest, i, acc => lastSomeIdxGo rest (i + 1) acc

/-- The highest present component id of a world (0 if none). -/
def lastSomeIdx {α : Type} (l : List (Option α)) : Nat := lastSomeIdxGo l 0 0

/-- The entity-id rewrite closure built by `encode_world` (`world.rs`
lines 134–142): an `Idx(i)` becomes the packed index when
`packed_idxs.get(i)` is `Some(Some(new_idx))`, else `Invalid`; an
`Invalid` id is left untouched. -/
def transform_id (pidx : List (Option Nat)) (id : EntityId) : EntityId :=
  match id with
  | .Idx i =>
    match pidx[i]? with
    | some (some n) => .Idx n
    | _ => .Invalid
  | .Invalid => .Invalid

/-- The component-array loop of `encode_world`: each array (in ascending
id order) followed by a blank-line separator. -/
def encode_component_loop {σ : Type} (fm : FloatModel) (sink : Sink σ)
    (t : EntityId → EntityId) : List ComponentArray → EncM σ
  | [] => eok
  | c :: cs =>
    eseq (encode_component_array fm sink t c)
      (eseq (wr sink [10]) (encode_component_loop fm sink t cs))

/-- `encode_world` of `world.rs`: the `WORLD` header (component count and
highest present id), then every component array and the global component
encoded under the `transform_id` rewrite closure, then the entity array. -/
def encode_world {σ : Type} (fm : FloatModel) (sink : Sink σ) (w : World) :
    EncM σ :=
  let t := transform_id w.entities.packed_idxs
  eseq
    (wr sink (strBytes "WORLD " ++
      decimal (w.components.countP Option.isSome) ++ [32] ++
      decimal (lastSomeIdx w.components) ++ [10]))
    (eseq (encode_component_loop fm sink t (w.components.filterMap id))
      (eseq (encode_global_component fm sink t w.global)
        (eseq (wr sink [10]) (encode_entity_array sink w.entities))))

/-! ### Derived notions used in the statements -/

/-- The perfect in-memory sink (`Vec<u8>` as `io::Write`): collects bytes
and never fails. -/
def byteSink : Sink (List Nat) := ⟨fun s bs => (s ++ bs, true)⟩

/-- A concrete float model for closed instances (no claim exercises a
`Float` value, so any model will do). -/
def fm0 : FloatModel := ⟨fun b => b % 2 ^ 32, id, fun a b => a == b⟩

/-- The identity entity-id transform (`&mut |_| {}` in the tests). -/
def idT : EntityId → EntityId := fun id => id

/-- Bytes produced by `encode_value` on the perfect sink (`none` when the
Rust code would panic). -/
def value_bytes (fm : FloatModel) (t : EntityId → EntityId) (v : Value) :
    Option (List Nat) :=
  (encode_value fm byteSink t v []).map Prod.fst

/-- Bytes produced by `encode_component_idx` on the perfect sink. -/
def component_idx_bytes (ci : ComponentIdx) : Option (List Nat) :=
  (encode_component_idx byteSink ci []).map Prod.fst

/-- Bytes produced by `encode_entity_data` on the perfect sink. -/
def entity_data_bytes (d : EntityData) : Option (List Nat) :=
  (encode_entity_data byteSink d []).map Prod.fst

/-- Bytes produced by `encode_component_array` on the perfect sink. -/
def component_array_bytes (fm : FloatModel) (t : EntityId → EntityId)
    (c : ComponentArray) : Option (List Nat) :=
  (encode_component_array fm byteSink t c []).map Prod.fst

/-- Bytes produced by `encode_global_component` on the perfect sink. -/
def global_component_bytes (fm : FloatModel) (t : EntityId → EntityId)
    (g : GlobalComponent) : Option (List Nat) :=
  (encode_global_component fm byteSink t g []).map Prod.fst

/-- Bytes produced by `encode_world` on the perfect sink. -/
def world_bytes (fm : FloatModel) (w : World) : Option (List Nat) :=
  (encode_world fm byteSink w []).map Prod.fst

mutual

/-- Recursively apply an entity-id transform to every `EntityId` leaf of a
value (including inside `Array` and `Maybe`) — the claims' description of
what `encode_world` does to component data before serialization. -/
def map_entity_ids (t : EntityId → EntityId) : Value → Value
  | .Bool b => .Bool b
  | .Int i => .Int i
  | .Float x => .Float x
  | .Bytes bs => .Bytes bs
  | .Array vs => .Array (map_entity_ids_list t vs)
  | .Maybe none => .Maybe none
  | .Maybe (some v) => .Maybe (some (map_entity_ids t v))
  | .EntityId id => .EntityId (t id)

/-- `map_entity_ids` on a list of values. -/
def map_entity_ids_list (t : EntityId → EntityId) : List Value → List Value
  | [] => []
  | v :: vs => map_entity_ids t v :: map_entity_ids_list t vs

end

mutual

/-- Representability of a value: every byte string and array inside is
small enough for the encoder's 32-bit length classes (beyond that the
Rust encoder panics). -/
def value_wf : Value → Bool
  | .Bool _ => true
  | .Int _ => true
  | .Float _ => true
  | .Bytes bs => bs.length < 0x100000000
  | .Array vs => decide (vs.length < 0x100000000) && values_wf vs
  | .Maybe none => true
  | .Maybe (some v) => value_wf v
  | .EntityId _ => true

/-- `value_wf` on a list of values. -/
def values_wf : List Value → Bool
  | [] => true
  | v :: vs => value_wf v && values_wf vs

end

/-- Representability of a whole world: every value stored in any component
array or in the global component is representable. -/
def world_wf (w : World) : Bool :=
  (w.components.filterMap id).all (fun c => values_wf c.values) &&
    values_wf w.global.values

/-- The number of non-deleted entities. -/
def alive_count (es : List EntityData) : Nat :=
  es.countP (fun e => !e.is_deleted)

/-- The packed index of position `i`: the number of non-deleted entities
strictly before it. -/
def alive_rank (es : List EntityData) (i : Nat) : Nat :=
  alive_count (es.take i)

/-- A computation on the perfect byte sink that writes exactly `b`. -/
def Emits (m : EncM (List Nat)) (b : List Nat) : Prop :=
  ∀ s, m s = some (s ++ b, true)

/-- A sink that counts bytes and fails any write that would push the total
past `limit` — a fault-injecting `io::Write`. -/
def failSink (limit : Nat) : Sink Nat :=
  ⟨fun s bs => (s + bs.length, decide (s + bs.length ≤ limit))⟩

/-- A world with no components, an empty global component, and one live
entity with no component indices.  Its encoding is 30 bytes:
`WORLD 0 0\n` (10) + `GLOBAL\n` (7) + `\n` (1) + `ENTITIES 1\n` (11) +
the entity's component-count byte (1). -/
def oneEntityWorld : World := ⟨[], ⟨[], []⟩, ⟨[⟨false, []⟩]⟩⟩

/-! ### C2 / C3: the 32-bit-length array form -/

/-- C2: at `v = Array([Int(0); 256])`, `encode_value` emits tag `0xa2`
followed by a 32-bit length, which its own decoder reads as tag `0xa2`
with an *8-bit* length of `0x00`: `decode(encode(v))` returns the empty
array (with 259 bytes left over), not `v`.  Round-trip identity fails. -/
theorem large_array_breaks_round_trip :
    value_bytes fm0 idT (.Array (List.replicate 256 (.Int 0))) =
      some (0xa2 :: 0 :: 0 :: 1 :: 0 :: List.replicate 256 0) ∧
    decode_value fm0 (0xa2 :: 0 :: 0 :: 1 :: 0 :: List.replicate 256 0) =
      some (.Array [], 0 :: 1 :: 0 :: List.replicate 256 0) ∧
    Value.Array [] ≠ Value.Array (List.replicate 256 (.Int 0)) := by
  refine ⟨?_, ?_, ?_⟩
  · set_option maxRecDepth 10000 in decide
  · set_option maxRecDepth 10000 in rfl
  · intro h
    injection h with h1
    have h2 := congrArg List.length h1
    rw [List.length_replicate] at h2
    exact absurd h2 (by decide)

/-- C3: at an array of length 256 (which fits 32 bits), `encode_value`
emits tag byte `0xa2` — not `0xa3` as claimed — before the 32-bit
big-endian length prefix and the element encodings. -/
theorem large_array_tag_is_a2_not_a3 :
    value_bytes fm0 idT (.Array (List.replicate 256 (.Int 0))) =
      some (0xa2 :: beBytes 4 256 ++ List.replicate 256 0) ∧
    (0xa2 :: beBytes 4 256 ++ List.replicate 256 0).head? ≠ some 0xa3 := by
  refine ⟨?_, by decide⟩
  set_option maxRecDepth 10000 in decide

/-! ### C4: I/O errors inside the `ENTITIES` block are swallowed -/

/-- C4: with a sink that fails the write of the single entity's
component-count byte (the 30th byte overall), `encode_entity_data`
reports the I/O failure, but `encode_world` still returns success —
`entity.rs` line 235 drops the `io::Result` of `encode_entity_data`. -/
theorem entity_block_io_error_swallowed :
    encode_entity_data (failSink 29) ⟨false, []⟩ 29 = some (30, false) ∧
    encode_world fm0 (failSink 29) oneEntityWorld 0 = some (30, true) := by
  constructor
  · decide
  · decide

/-! ### C6: the encoding of `Int(200)` -/

/-- C6 counterexample: encoding `Value::Int(200)` does *not* yield
`0xa8 0xc8` (200 does not fit `i8`; `0xa8 0xc8` would decode as
`Int(-56)`). -/
theorem int200_not_a8c8 :
    value_bytes fm0 idT (.Int 200) ≠ some [0xa8, 0xc8] := by decide

/-- C6 (amended): encoding `Value::Int(200)` yields tag `0xa9` followed by
the int16 big-endian bytes `0x00 0xc8`, for every float model and every
entity-id transform. -/
theorem int200_encodes_as_a9 (fm : FloatModel) (t : EntityId → EntityId) :
    value_bytes fm t (.Int 200) = some [0xa9, 0x00, 0xc8] := rfl

/-! ### C5: correctness of the compaction mapping -/

theorem packed_idxsGo_length (es : List EntityData) (c : Nat) :
    (packed_idxsGo es c).length = es.length := by
  induction es generalizing c with
  | nil => rfl
  | cons e es ih =>
    by_cases h : e.is_deleted <;> simp [packed_idxsGo, h, ih]

theorem packed_idxsGo_getElem? (es : List EntityData) (c k : Nat) :
    (packed_idxsGo es c)[k]? =
      (es[k]?).map (fun e =>
        if e.is_deleted then none else some (c + alive_rank es k)) := by
  induction es generalizing c k with
  | nil => simp [packed_idxsGo]
  | cons e es ih =>
    cases k with
    | zero =>
      by_cases h : e.is_deleted <;>
        simp [packed_idxsGo, h, alive_rank, alive_count]
    | succ k =>
      by_cases h : e.is_deleted <;>
        simp [packed_idxsGo, h, ih, alive_rank, alive_count,
          List.take_succ_cons, List.countP_cons, Nat.add_assoc, Nat.add_comm]

theorem packed_idxsGo_reduceOption (es : List EntityData) (c : Nat) :
    (packed_idxsGo es c).reduceOption = List.range' c (alive_count es) := by
  induction es generalizing c with
  | nil => simp [packed_idxsGo, alive_count]
  | cons e es ih =>
    by_cases h : e.is_deleted
    · simp [packed_idxsGo, h, List.reduceOption_cons_of_none, ih,
        alive_count, List.countP_cons]
    · have hgo : packed_idxsGo (e :: es) c = some c :: packed_idxsGo es (c + 1) := by
        simp [packed_idxsGo, h]
      have hc : alive_count (e :: es) = alive_count es + 1 := by
        simp [alive_count, List.countP_cons, h]
      rw [hgo, List.reduceOption_cons_of_some, ih, hc, List.range'_succ]

/-- C5: `packed_idxs()` has one entry per entity, is `None` exactly at the
deleted positions (and at a live position `k` holds `Some` of the number
of live entities before `k`), and its `Some` values read off in order are
exactly `0, 1, ..., liveCount - 1` — strictly increasing and gap-free. -/
theorem packed_idxs_correct (a : EntityArray) :
    a.packed_idxs.length = a.entries.length ∧
    (∀ k, a.packed_idxs[k]? =
      (a.entries[k]?).map (fun e =>
        if e.is_deleted then none else some (alive_rank a.entries k))) ∧
    a.packed_idxs.reduceOption = List.range (alive_count a.entries) := by
  refine ⟨packed_idxsGo_length _ _, fun k => ?_, ?_⟩
  · have h := packed_idxsGo_getElem? a.entries 0 k
    simpa using h
  · rw [EntityArray.packed_idxs, packed_idxsGo_reduceOption,
      List.range_eq_range']

/-! ### C7: the inline forms for small integers and small entity indices -/

/-- C7: for `0 ≤ v ≤ 127`, `encode_value(Int(v))` is exactly the single
byte `v`; and whenever the entity-id transform produces `Idx(i)` with
`i < 64`, the encoding is exactly the single byte `0xc0 + i`.  No wider
form is emitted in these ranges. -/
theorem inline_forms_are_minimal :
    (∀ (fm : FloatModel) (t : EntityId → EntityId) (v : Int),
      0 ≤ v → v ≤ 127 → value_bytes fm t (.Int v) = some [v.toNat]) ∧
    (∀ (fm : FloatModel) (t : EntityId → EntityId) (id : EntityId) (i : Nat),
      t id = .Idx i → i < 64 →
      value_bytes fm t (.EntityId id) = some [0xc0 + i]) := by
  constructor
  · intro fm t v h0 h1
    have hlt : v < 0x80 := by omega
    simp [value_bytes, encode_value, wr, byteSink, h0, hlt]
  · intro fm t id i ht hi
    have h1 : i < 0x100 := by omega
    simp [value_bytes, encode_value, ht, wr, byteSink, h1, hi]

/-- Witness for C7 at `v = 5` and `i = 9`. -/
theorem inline_forms_are_minimal_witness :
    value_bytes fm0 idT (.Int 5) = some [5] ∧
    value_bytes fm0 idT (.EntityId (.Idx 9)) = some [0xc0 + 9] :=
  ⟨by have h := inline_forms_are_minimal.1 fm0 idT 5 (by decide) (by decide)
      exact h,
   inline_forms_are_minimal.2 fm0 idT (.Idx 9) 9 rfl (by decide)⟩

/-! ### C10: `Invalid` ids pass through the rewrite unchanged -/

/-- C10: the rewrite closure of `encode_world` only remaps the `Idx`
variant — `Invalid` is returned unchanged for every compaction mapping —
so a stored `Value::EntityId(Invalid)` is always serialized as the single
tag byte `0xb1`, whatever the world's entities look like. -/
theorem invalid_entity_id_preserved :
    (∀ pidx : List (Option Nat), transform_id pidx .Invalid = .Invalid) ∧
    (∀ (fm : FloatModel) (w : World),
      value_bytes fm (transform_id w.entities.packed_idxs)
        (.EntityId .Invalid) = some [0xb1]) :=
  ⟨fun _ => rfl, fun _ _ => rfl⟩

/-! ### C9: bounds-checked record access -/

theorem componentArray_get_eq (c : ComponentArray) (idx : Nat)
    (hs : c.scheme.length < 0x100000000) :
    c.get idx =
      if c.scheme.length = 0 then
        (if idx = 0 then some ⟨c.scheme, []⟩ else none)
      else if idx + 1 < 0x100000000 ∧
          (idx + 1) * c.scheme.length < 0x100000000 ∧
          (idx + 1) * c.scheme.length ≤ c.values.length then
        some ⟨c.scheme,
          (c.values.drop (idx * c.scheme.length)).take c.scheme.length⟩
      else none := by
  have hmod : c.scheme.length % 0x100000000 = c.scheme.length :=
    Nat.mod_eq_of_lt hs
  by_cases h0 : c.scheme.length = 0
  · by_cases hi : idx = 0
    · simp [ComponentArray.get, hmod, h0, hi, checked_mul_u32,
        checked_add_u32, slice_get]
    · simp [ComponentArray.get, hmod, h0, hi]
  · simp only [ComponentArray.get, hmod]
    have hguard : ¬ (c.scheme.length = 0 ∧ idx ≠ 0) := by
      intro h; exact h0 h.1
    rw [if_neg hguard, if_neg h0]
    simp only [Option.bind_eq_bind]
    have hle : idx * c.scheme.length ≤ (idx + 1) * c.scheme.length :=
      Nat.mul_le_mul_right _ (Nat.le_succ idx)
    by_cases hm1 : idx * c.scheme.length < 0x100000000
    · have e1 : checked_mul_u32 idx c.scheme.length =
          some (idx * c.scheme.length) := by simp [checked_mul_u32, hm1]
      rw [e1, Option.some_bind]
      by_cases ha : idx + 1 < 0x100000000
      · have e2 : checked_add_u32 idx 1 = some (idx + 1) := by
          simp [checked_add_u32, ha]
        rw [e2, Option.some_bind]
        by_cases hm2 : (idx + 1) * c.scheme.length < 0x100000000
        · have e3 : checked_mul_u32 (idx + 1) c.scheme.length =
              some ((idx + 1) * c.scheme.length) := by
            simp [checked_mul_u32, hm2]
          rw [e3, Option.some_bind]
          by_cases hlen : (idx + 1) * c.scheme.length ≤ c.values.length
          · have e4 : slice_get c.values (idx * c.scheme.length)
                ((idx + 1) * c.scheme.length) =
                some ((c.values.drop (idx * c.scheme.length)).take
                  ((idx + 1) * c.scheme.length - idx * c.scheme.length)) := by
              simp [slice_get, hle, hlen]
            rw [e4, Option.some_bind, if_pos ⟨ha, hm2, hlen⟩]
            have hdiff : (idx + 1) * c.scheme.length - idx * c.scheme.length =
                c.scheme.length := by
              have hexp : (idx + 1) * c.scheme.length =
                  idx * c.scheme.length + c.scheme.length := by ring
              omega
            rw [hdiff]
          · have e4 : slice_get c.values (idx * c.scheme.length)
                ((idx + 1) * c.scheme.length) = none := by
              simp only [slice_get]
              rw [if_neg (fun h => hlen h.2)]
            rw [e4, Option.none_bind, if_neg (fun h => hlen h.2.2)]
        · have e3 : checked_mul_u32 (idx + 1) c.scheme.length = none := by
            simp [checked_mul_u32, hm2]
          rw [e3, Option.none_bind, if_neg (fun h => hm2 h.2.1)]
      · have e2 : checked_add_u32 idx 1 = none := by
          simp [checked_add_u32, ha]
        rw [e2, Option.none_bind, if_neg (fun h => ha h.1)]
    · have hno : ¬ ((idx + 1) * c.scheme.length < 0x100000000) := by
        intro h
        exact hm1 (Nat.lt_of_le_of_lt hle h)
      have e1 : checked_mul_u32 idx c.scheme.length = none := by
        simp [checked_mul_u32, hm1]
      rw [e1, Option.none_bind, if_neg (fun h => hno h.2.1)]

/-- C9: `get` (and identically `get_mut`) is total and bounds-checked: for
a marker component (empty scheme) it answers `Some` with an empty field
slice exactly at record index 0 and `None` at every other index,
regardless of the stored values; for a non-empty scheme it answers `None`
whenever the record range `idx*len .. (idx+1)*len` overflows `u32`
arithmetic or falls outside the values, and every `Some` carries exactly
the record's field slice, of length `scheme.len()`. -/
theorem component_array_get_safe (c : ComponentArray) (idx : Nat)
    (hs : c.scheme.length < 0x100000000) :
    c.get_mut idx = c.get idx ∧
    (c.scheme.length = 0 →
      c.get idx = if idx = 0 then some ⟨c.scheme, []⟩ else none) ∧
    (c.scheme.length ≠ 0 → c.get idx =
      if idx + 1 < 0x100000000 ∧
          (idx + 1) * c.scheme.length < 0x100000000 ∧
          (idx + 1) * c.scheme.length ≤ c.values.length then
        some ⟨c.scheme,
          (c.values.drop (idx * c.scheme.length)).take c.scheme.length⟩
      else none) ∧
    (∀ r, c.get idx = some r →
      r.scheme = c.scheme ∧ r.values.length = c.scheme.length) := by
  have heq := componentArray_get_eq c idx hs
  refine ⟨rfl, ?_, ?_, ?_⟩
  · intro h0
    rw [heq, if_pos h0]
  · intro h0
    rw [heq, if_neg h0]
  · intro r hr
    rw [heq] at hr
    by_cases h0 : c.scheme.length = 0
    · rw [if_pos h0] at hr
      by_cases hi : idx = 0
      · rw [if_pos hi] at hr
        cases hr
        exact ⟨rfl, h0.symm⟩
      · rw [if_neg hi] at hr
        cases hr
    · rw [if_neg h0] at hr
      by_cases hc : idx + 1 < 0x100000000 ∧
          (idx + 1) * c.scheme.length < 0x100000000 ∧
          (idx + 1) * c.scheme.length ≤ c.values.length
      · rw [if_pos hc] at hr
        cases hr
        refine ⟨rfl, ?_⟩
        have hlen := hc.2.2
        have hexp : (idx + 1) * c.scheme.length =
            idx * c.scheme.length + c.scheme.length := by ring
        rw [List.length_take, List.length_drop]
        omega
      · rw [if_neg hc] at hr
        cases hr

/-- Witness for C9 at a concrete two-field component and record index 1. -/
theorem component_array_get_safe_witness :
    let c : ComponentArray :=
      ⟨"point", 2, ["x", "y"], [.Int 1, .Int 2, .Int 3, .Int 4]⟩
    c.get_mut 1 = c.get 1 :=
  (component_array_get_safe
    ⟨"point", 2, ["x", "y"], [.Int 1, .Int 2, .Int 3, .Int 4]⟩ 1
    (by decide)).1

/-! ### C8: the component-index codec -/

theorem beBytes_length (w x : Nat) : (beBytes w x).length = w := by
  induction w generalizing x with
  | zero => rfl
  | succ w ih => simp [beBytes, ih]

theorem beBytes_one (x : Nat) (h : x < 0x100) : beBytes 1 x = [x] := by
  simp [beBytes, Nat.mod_eq_of_lt h]

theorem decode_u8_be (x : Nat) (r : List Nat) (h : x < 0x100) :
    decode_u8 (beBytes 1 x ++ r) = some (x, r) := by
  rw [beBytes_one x h]
  rfl

theorem decode_u16_be (x : Nat) (r : List Nat) (h : x < 0x10000) :
    decode_u16 (beBytes 2 x ++ r) = some (x, r) := by
  show decode_u16 ((beBytes 1 (x / 256) ++ [x % 256]) ++ r) = some (x, r)
  rw [beBytes_one (x / 256) (by omega)]
  simp only [List.cons_append, List.nil_append, decode_u16,
    Option.some.injEq, Prod.mk.injEq]
  exact ⟨by omega, trivial⟩

theorem decode_u24_be (x : Nat) (r : List Nat) (h : x < 0x1000000) :
    decode_u24 (beBytes 3 x ++ r) = some (x, r) := by
  show decode_u24 (((beBytes 1 (x / 256 / 256) ++ [x / 256 % 256]) ++ [x % 256]) ++ r) =
    some (x, r)
  rw [beBytes_one (x / 256 / 256) (by omega)]
  simp only [List.cons_append, List.nil_append, decode_u24,
    Option.some.injEq, Prod.mk.injEq]
  exact ⟨by omega, trivial⟩

theorem decode_u32_be (x : Nat) (r : List Nat) (h : x < 0x100000000) :
    decode_u32 (beBytes 4 x ++ r) = some (x, r) := by
  show decode_u32 ((((beBytes 1 (x / 256 / 256 / 256) ++ [x / 256 / 256 % 256]) ++
    [x / 256 % 256]) ++ [x % 256]) ++ r) = some (x, r)
  rw [beBytes_one (x / 256 / 256 / 256) (by omega)]
  simp only [List.cons_append, List.nil_append, decode_u32,
    Option.some.injEq, Prod.mk.injEq]
  exact ⟨by omega, trivial⟩

theorem decode_u8_inv {bs : List Nat} {v : Nat} {r : List Nat}
    (h : decode_u8 bs = some (v, r)) : bs = v :: r := by
  cases bs with
  | nil => exact absurd h (by simp [decode_u8])
  | cons a t =>
    simp only [decode_u8, Option.some.injEq, Prod.mk.injEq] at h
    rw [h.1, h.2]

theorem decode_u16_inv {bs : List Nat} {v : Nat} {r : List Nat}
    (h : decode_u16 bs = some (v, r)) :
    ∃ a b, bs = a :: b :: r ∧ v = a * 256 + b := by
  match bs with
  | [] => exact absurd h (by simp [decode_u16])
  | [a] => exact absurd h (by simp [decode_u16])
  | a :: b :: t =>
    simp only [decode_u16, Option.some.injEq, Prod.mk.injEq] at h
    exact ⟨a, b, by rw [h.2], h.1.symm⟩

theorem decode_u24_inv {bs : List Nat} {v : Nat} {r : List Nat}
    (h : decode_u24 bs = some (v, r)) :
    ∃ a b c, bs = a :: b :: c :: r ∧ v = (a * 256 + b) * 256 + c := by
  match bs with
  | [] => exact absurd h (by simp [decode_u24])
  | [a] => exact absurd h (by simp [decode_u24])
  | [a, b] => exact absurd h (by simp [decode_u24])
  | a :: b :: c :: t =>
    simp only [decode_u24, Option.some.injEq, Prod.mk.injEq] at h
    exact ⟨a, b, c, by rw [h.2], h.1.symm⟩

theorem decode_u32_inv {bs : List Nat} {v : Nat} {r : List Nat}
    (h : decode_u32 bs = some (v, r)) :
    ∃ a b c d, bs = a :: b :: c :: d :: r ∧
      v = ((a * 256 + b) * 256 + c) * 256 + d := by
  match bs with
  | [] => exact absurd h (by simp [decode_u32])
  | [a] => exact absurd h (by simp [decode_u32])
  | [a, b] => exact absurd h (by simp [decode_u32])
  | [a, b, c] => exact absurd h (by simp [decode_u32])
  | a :: b :: c :: d :: t =>
    simp only [decode_u32, Option.some.injEq, Prod.mk.injEq] at h
    exact ⟨a, b, c, d, by rw [h.2], h.1.symm⟩

/-- The byte sequence emitted by `encode_component_idx`, in closed form. -/
theorem component_idx_bytes_eq (id idx : Nat) :
    component_idx_bytes ⟨id, idx⟩ = some (
      if id < 0x40 then
        if idx = 0 then [0xc0 + id]
        else if idx < 0x100 then [id, idx]
        else if idx < 0x10000 then (0x40 + id) :: beBytes 2 idx
        else if idx < 0x1000000 then 0x82 :: id :: beBytes 3 idx
        else 0x83 :: id :: beBytes 4 idx
      else if id < 0x100 then
        if idx = 0 then [0x88, id]
        else if idx < 0x100 then [0x80, id, idx]
        else if idx < 0x10000 then 0x81 :: id :: beBytes 2 idx
        else if idx < 0x1000000 then 0x82 :: id :: beBytes 3 idx
        else 0x83 :: id :: beBytes 4 idx
      else
        if idx = 0 then 0x89 :: beBytes 2 id
        else if idx < 0x100 then 0x84 :: (beBytes 2 id ++ [idx])
        else if idx < 0x10000 then 0x85 :: (beBytes 2 id ++ beBytes 2 idx)
        else if idx < 0x1000000 then 0x86 :: (beBytes 2 id ++ beBytes 3 idx)
        else 0x87 :: (beBytes 2 id ++ beBytes 4 idx)) := by
  have h40 : ∀ y : Nat, y < 0x40 → (0x40 + y) % 256 = 0x40 + y := by
    intro y hy; exact Nat.mod_eq_of_lt (by omega)
  have hc0 : ∀ y : Nat, y < 0x40 → (0xc0 + y) % 256 = 0xc0 + y := by
    intro y hy; exact Nat.mod_eq_of_lt (by omega)
  by_cases h1 : id < 0x100
  · by_cases h2 : id < 0x40
    · by_cases h3 : idx < 0x100
      · by_cases h4 : idx = 0
        · simp [component_idx_bytes, encode_component_idx, IdScale.from_id,
            IdxScale.from_idx, h1, h2, h3, h4, eseq, wr, byteSink, beBytes,
            hc0 id h2]
        · simp [component_idx_bytes, encode_component_idx, IdScale.from_id,
            IdxScale.from_idx, h1, h2, h3, h4, eseq, wr, byteSink, beBytes,
            Nat.mod_eq_of_lt h3, Nat.mod_eq_of_lt (show id < 256 by omega)]
      · by_cases h5 : idx < 0x10000
        · simp [component_idx_bytes, encode_component_idx, IdScale.from_id,
            IdxScale.from_idx, h1, h2, h3, h5, eseq, wr, byteSink,
            beBytes_one (0x40 + id) (by omega), h40 id h2,
            show ¬ idx = 0 by omega]
        · by_cases h6 : idx < 0x1000000
          · simp [component_idx_bytes, encode_component_idx, IdScale.from_id,
              IdxScale.from_idx, h1, h2, h3, h5, h6, eseq, wr, byteSink,
              beBytes_one 0x82 (by omega),
              beBytes_one id (by omega), show ¬ idx = 0 by omega]
          · simp [component_idx_bytes, encode_component_idx, IdScale.from_id,
              IdxScale.from_idx, h1, h2, h3, h5, h6, eseq, wr, byteSink,
              beBytes_one 0x83 (by omega),
              beBytes_one id (by omega), show ¬ idx = 0 by omega]
    · by_cases h3 : idx < 0x100
      · by_cases h4 : idx = 0
        · simp [component_idx_bytes, encode_component_idx, IdScale.from_id,
            IdxScale.from_idx, h1, h2, h3, h4, eseq, wr, byteSink,
            beBytes_one 0x88 (by omega), beBytes_one id (by omega)]
        · simp [component_idx_bytes, encode_component_idx, IdScale.from_id,
            IdxScale.from_idx, h1, h2, h3, h4, eseq, wr, byteSink,
            beBytes_one 0x80 (by omega), beBytes_one id (by omega),
            beBytes_one idx (by omega)]
      · by_cases h5 : idx < 0x10000
        · simp [component_idx_bytes, encode_component_idx, IdScale.from_id,
            IdxScale.from_idx, h1, h2, h3, h5, eseq, wr, byteSink,
            beBytes_one 0x81 (by omega), beBytes_one id (by omega),
            show ¬ idx = 0 by omega]
        · by_cases h6 : idx < 0x1000000
          · simp [component_idx_bytes, encode_component_idx, IdScale.from_id,
              IdxScale.from_idx, h1, h2, h3, h5, h6, eseq, wr, byteSink,
              beBytes_one 0x82 (by omega), beBytes_one id (by omega),
              show ¬ idx = 0 by omega]
          · simp [component_idx_bytes, encode_component_idx, IdScale.from_id,
              IdxScale.from_idx, h1, h2, h3, h5, h6, eseq, wr, byteSink,
              beBytes_one 0x83 (by omega), beBytes_one id (by omega),
              show ¬ idx = 0 by omega]
  · have h2 : ¬ id < 0x40 := by omega
    by_cases h3 : idx < 0x100
    · by_cases h4 : idx = 0
      · simp [component_idx_bytes, encode_component_idx, IdScale.from_id,
          IdxScale.from_idx, h1, h2, h3, h4, eseq, wr, byteSink,
          beBytes_one 0x89 (by omega)]
      · simp [component_idx_bytes, encode_component_idx, IdScale.from_id,
          IdxScale.from_idx, h1, h2, h3, h4, eseq, wr, byteSink,
          beBytes_one 0x84 (by omega), beBytes_one idx (by omega)]
    · by_cases h5 : idx < 0x10000
      · simp [component_idx_bytes, encode_component_idx, IdScale.from_id,
          IdxScale.from_idx, h1, h2, h3, h5, eseq, wr, byteSink,
          beBytes_one 0x85 (by omega), show ¬ idx = 0 by omega]
      · by_cases h6 : idx < 0x1000000
        · simp [component_idx_bytes, encode_component_idx, IdScale.from_id,
            IdxScale.from_idx, h1, h2, h3, h5, h6, eseq, wr, byteSink,
            beBytes_one 0x86 (by omega), show ¬ idx = 0 by omega]
        · simp [component_idx_bytes, encode_component_idx, IdScale.from_id,
            IdxScale.from_idx, h1, h2, h3, h5, h6, eseq, wr, byteSink,
            beBytes_one 0x87 (by omega), show ¬ idx = 0 by omega]

/-- Decoding the canonical encoding of a component index consumes exactly
those bytes and recovers the pair. -/
theorem component_idx_round_trip (id idx : Nat) (hid : id < 0x10000)
    (hidx : idx < 0x100000000) (enc : List Nat)
    (henc : component_idx_bytes ⟨id, idx⟩ = some enc) (rest : List Nat) :
    decode_component_idx (enc ++ rest) = some (⟨id, idx⟩, rest) := by
  rw [component_idx_bytes_eq id idx] at henc
  injection henc with henc
  subst henc
  by_cases h1 : id < 0x100
  · by_cases h2 : id < 0x40
    · by_cases h4 : idx = 0
      · subst h4
        simp [h2, decode_component_idx,
          show ¬ (0xc0 + id < 0x40) by omega,
          show ¬ (0xc0 + id < 0x80) by omega,
          show ¬ (0xc0 + id = 0x80) by omega,
          show ¬ (0xc0 + id = 0x81) by omega,
          show ¬ (0xc0 + id = 0x82) by omega,
          show ¬ (0xc0 + id = 0x83) by omega,
          show ¬ (0xc0 + id = 0x84) by omega,
          show ¬ (0xc0 + id = 0x85) by omega,
          show ¬ (0xc0 + id = 0x86) by omega,
          show ¬ (0xc0 + id = 0x87) by omega,
          show ¬ (0xc0 + id = 0x88) by omega,
          show ¬ (0xc0 + id = 0x89) by omega,
          show ¬ (0xc0 + id < 0xc0) by omega]
      · by_cases h3 : idx < 0x100
        · simp [h2, h3, h4, decode_component_idx, decode_u8]
        · by_cases h5 : idx < 0x10000
          · simp only [h2, if_true, h3, if_false, h4, h5, if_true,
              List.cons_append, List.append_assoc]
            simp [decode_component_idx,
              show ¬ (0x40 + id < 0x40) by omega,
              show 0x40 + id < 0x80 by omega,
              decode_u16_be idx rest (by omega)]
          · by_cases h6 : idx < 0x1000000
            · simp only [h2, if_true, h3, h4, h5, if_false, h6,
                List.cons_append, List.append_assoc]
              simp [decode_component_idx, decode_u8, Option.bind_eq_bind,
                decode_u24_be idx rest (by omega)]
            · simp only [h2, if_true, h3, h4, h5, h6, if_false,
                List.cons_append, List.append_assoc]
              simp [decode_component_idx, decode_u8, Option.bind_eq_bind,
                decode_u32_be idx rest (by omega)]
    · by_cases h4 : idx = 0
      · subst h4
        simp [h2, h1, decode_component_idx, decode_u8, Option.bind_eq_bind]
      · by_cases h3 : idx < 0x100
        · simp [h2, h1, h3, h4, decode_component_idx, decode_u8,
            Option.bind_eq_bind]
        · by_cases h5 : idx < 0x10000
          · simp only [h2, h1, if_true, if_false, h3, h4, h5,
              List.cons_append, List.append_assoc]
            simp [decode_component_idx, decode_u8, Option.bind_eq_bind,
              decode_u16_be idx rest (by omega)]
          · by_cases h6 : idx < 0x1000000
            · simp only [h2, h1, if_true, if_false, h3, h4, h5, h6,
                List.cons_append, List.append_assoc]
              simp [decode_component_idx, decode_u8, Option.bind_eq_bind,
                decode_u24_be idx rest (by omega)]
            · simp only [h2, h1, if_true, if_false, h3, h4, h5, h6,
                List.cons_append, List.append_assoc]
              simp [decode_component_idx, decode_u8, Option.bind_eq_bind,
                decode_u32_be idx rest (by omega)]
  · have h2 : ¬ id < 0x40 := by omega
    by_cases h4 : idx = 0
    · subst h4
      simp only [h2, h1, if_false, if_true, List.cons_append,
        List.append_assoc]
      simp [decode_component_idx, Option.bind_eq_bind,
        decode_u16_be id rest (by omega)]
    · by_cases h3 : idx < 0x100
      · simp only [h2, h1, if_false, h3, h4, if_true, List.cons_append,
          List.append_assoc]
        simp [decode_component_idx, Option.bind_eq_bind,
          decode_u16_be id (idx :: rest) (by omega), decode_u8]
      · by_cases h5 : idx < 0x10000
        · simp only [h2, h1, if_false, h3, h4, h5, if_true,
            List.cons_append, List.append_assoc]
          simp [decode_component_idx, Option.bind_eq_bind,
            decode_u16_be id (beBytes 2 idx ++ rest) (by omega),
            decode_u16_be idx rest (by omega)]
        · by_cases h6 : idx < 0x1000000
          · simp only [h2, h1, if_false, h3, h4, h5, h6, if_true,
              List.cons_append, List.append_assoc]
            simp [decode_component_idx, Option.bind_eq_bind,
              decode_u16_be id (beBytes 3 idx ++ rest) (by omega),
              decode_u24_be idx rest (by omega)]
          · simp only [h2, h1, if_false, h3, h4, h5, h6,
              List.cons_append, List.append_assoc]
            simp [decode_component_idx, Option.bind_eq_bind,
              decode_u16_be id (beBytes 4 idx ++ rest) (by omega),
              decode_u32_be idx rest (by omega)]

/-- The byte length of the canonical component-index encoding, by class. -/
theorem component_idx_bytes_length (id idx : Nat) (enc : List Nat)
    (henc : component_idx_bytes ⟨id, idx⟩ = some enc) :
    enc.length =
      if id < 0x40 then
        if idx = 0 then 1 else if idx < 0x100 then 2
        else if idx < 0x10000 then 3 else if idx < 0x1000000 then 5 else 6
      else if id < 0x100 then
        if idx = 0 then 2 else if idx < 0x100 then 3
        else if idx < 0x10000 then 4 else if idx < 0x1000000 then 5 else 6
      else
        if idx = 0 then 3 else if idx < 0x100 then 4
        else if idx < 0x10000 then 5 else if idx < 0x1000000 then 6 else 7 := by
  rw [component_idx_bytes_eq id idx] at henc
  injection henc with henc
  subst henc
  split_ifs <;> simp [beBytes_length]

set_option maxHeartbeats 2000000 in
/-- No byte sequence that decodes (exactly, with nothing left over) to a
given component-index pair is shorter than the canonical encoding. -/
theorem component_idx_minimal (id idx : Nat) (enc : List Nat)
    (henc : component_idx_bytes ⟨id, idx⟩ = some enc)
    (bs : List Nat) (hbs : ∀ b ∈ bs, b < 256)
    (hdec : decode_component_idx bs = some (⟨id, idx⟩, [])) :
    enc.length ≤ bs.length := by
  rw [component_idx_bytes_length id idx enc henc]
  cases bs with
  | nil => exact absurd hdec (by simp [decode_component_idx])
  | cons b r =>
    have hblt : b < 256 := hbs b (by simp)
    by_cases hb1 : b < 0x40
    · -- 0x00–0x3f: 6-bit id, u8 idx
      simp [decode_component_idx, hb1, Option.bind_eq_some, Option.map_eq_some',
        Prod.mk.injEq, ComponentIdx.mk.injEq] at hdec
      obtain ⟨hu, hbid⟩ := hdec
      have hr := decode_u8_inv hu
      subst hr
      have hx : idx < 256 := hbs idx (by simp)
      simp only [List.length_cons, List.length_nil]
      split_ifs <;> omega
    · by_cases hb2 : b < 0x80
      · -- 0x40–0x7f: 6-bit id (biased), u16 idx
        simp [decode_component_idx, hb1, hb2, Option.bind_eq_some, Option.map_eq_some',
          Prod.mk.injEq, ComponentIdx.mk.injEq] at hdec
        obtain ⟨hu, hbid⟩ := hdec
        obtain ⟨x, y, hr, hval⟩ := decode_u16_inv hu
        subst hr
        have hx : x < 256 := hbs x (by simp)
        have hy : y < 256 := hbs y (by simp)
        simp only [List.length_cons, List.length_nil]
        split_ifs <;> omega
      · by_cases hb3 : b = 0x80
        · -- 0x80: u8 id, u8 idx
          subst hb3
          simp [decode_component_idx, Option.bind_eq_some, Option.map_eq_some',
            Prod.mk.injEq, ComponentIdx.mk.injEq] at hdec
          obtain ⟨a, bb, hu, hv, hbid⟩ := hdec
          have hr := decode_u8_inv hu
          have hr2 := decode_u8_inv hv
          subst hr2 hr
          have ha : a < 256 := hbs a (by simp)
          have hx2 : idx < 256 := hbs idx (by simp)
          simp only [List.length_cons, List.length_nil]
          split_ifs <;> omega
        · by_cases hb4 : b = 0x81
          · -- 0x81: u8 id, u16 idx
            subst hb4
            simp [decode_component_idx, Option.bind_eq_some, Option.map_eq_some',
              Prod.mk.injEq, ComponentIdx.mk.injEq] at hdec
            obtain ⟨a, bb, hu, hv, hbid⟩ := hdec
            have hr := decode_u8_inv hu
            obtain ⟨x2, y2, hr2, hval2⟩ := decode_u16_inv hv
            subst hr2 hr
            have ha : a < 256 := hbs a (by simp)
            have hx2 : x2 < 256 := hbs x2 (by simp)
            have hy2 : y2 < 256 := hbs y2 (by simp)
            simp only [List.length_cons, List.length_nil]
            split_ifs <;> omega
          · by_cases hb5 : b = 0x82
            · -- 0x82: u8 id, u24 idx
              subst hb5
              simp [decode_component_idx, Option.bind_eq_some, Option.map_eq_some',
                Prod.mk.injEq, ComponentIdx.mk.injEq] at hdec
              obtain ⟨a, bb, hu, hv, hbid⟩ := hdec
              have hr := decode_u8_inv hu
              obtain ⟨x2, y2, z2, hr2, hval2⟩ := decode_u24_inv hv
              subst hr2 hr
              have ha : a < 256 := hbs a (by simp)
              have hx2 : x2 < 256 := hbs x2 (by simp)
              have hy2 : y2 < 256 := hbs y2 (by simp)
              have hz2 : z2 < 256 := hbs z2 (by simp)
              simp only [List.length_cons, List.length_nil]
              split_ifs <;> omega
            · by_cases hb6 : b = 0x83
              · -- 0x83: u8 id, u32 idx
                subst hb6
                simp [decode_component_idx, Option.bind_eq_some, Option.map_eq_some',
                  Prod.mk.injEq, ComponentIdx.mk.injEq] at hdec
                obtain ⟨a, bb, hu, hv, hbid⟩ := hdec
                have hr := decode_u8_inv hu
                obtain ⟨x2, y2, z2, w2, hr2, hval2⟩ := decode_u32_inv hv
                subst hr2 hr
                have ha : a < 256 := hbs a (by simp)
                simp only [List.length_cons, List.length_nil]
                split_ifs <;> omega
              · by_cases hb7 : b = 0x84
                · -- 0x84: u16 id, u8 idx
                  subst hb7
                  simp [decode_component_idx, Option.bind_eq_some, Option.map_eq_some',
                    Prod.mk.injEq, ComponentIdx.mk.injEq] at hdec
                  obtain ⟨a, bb, hu, hv, hbid⟩ := hdec
                  obtain ⟨x, y, hr, hval⟩ := decode_u16_inv hu
                  have hr2 := decode_u8_inv hv
                  subst hr2 hr
                  have hx : x < 256 := hbs x (by simp)
                  have hy : y < 256 := hbs y (by simp)
                  have hx2 : idx < 256 := hbs idx (by simp)
                  simp only [List.length_cons, List.length_nil]
                  split_ifs <;> omega
                · by_cases hb8 : b = 0x85
                  · -- 0x85: u16 id, u16 idx
                    subst hb8
                    simp [decode_component_idx, Option.bind_eq_some, Option.map_eq_some',
                      Prod.mk.injEq, ComponentIdx.mk.injEq] at hdec
                    obtain ⟨a, bb, hu, hv, hbid⟩ := hdec
                    obtain ⟨x, y, hr, hval⟩ := decode_u16_inv hu
                    obtain ⟨x2, y2, hr2, hval2⟩ := decode_u16_inv hv
                    subst hr2 hr
                    have hx : x < 256 := hbs x (by simp)
                    have hy : y < 256 := hbs y (by simp)
                    have hx2 : x2 < 256 := hbs x2 (by simp)
                    have hy2 : y2 < 256 := hbs y2 (by simp)
                    simp only [List.length_cons, List.length_nil]
                    split_ifs <;> omega
                  · by_cases hb9 : b = 0x86
                    · -- 0x86: u16 id, u24 idx
                      subst hb9
                      simp [decode_component_idx, Option.bind_eq_some, Option.map_eq_some',
                        Prod.mk.injEq, ComponentIdx.mk.injEq] at hdec
                      obtain ⟨a, bb, hu, hv, hbid⟩ := hdec
                      obtain ⟨x, y, hr, hval⟩ := decode_u16_inv hu
                      obtain ⟨x2, y2, z2, hr2, hval2⟩ := decode_u24_inv hv
                      subst hr2 hr
                      have hx : x < 256 := hbs x (by simp)
                      have hy : y < 256 := hbs y (by simp)
                      have hx2 : x2 < 256 := hbs x2 (by simp)
                      have hy2 : y2 < 256 := hbs y2 (by simp)
                      have hz2 : z2 < 256 := hbs z2 (by simp)
                      simp only [List.length_cons, List.length_nil]
                      split_ifs <;> omega
                    · by_cases hb10 : b = 0x87
                      · -- 0x87: u16 id, u32 idx
                        subst hb10
                        simp [decode_component_idx, Option.bind_eq_some, Option.map_eq_some',
                          Prod.mk.injEq, ComponentIdx.mk.injEq] at hdec
                        obtain ⟨a, bb, hu, hv, hbid⟩ := hdec
                        obtain ⟨x, y, hr, hval⟩ := decode_u16_inv hu
                        obtain ⟨x2, y2, z2, w2, hr2, hval2⟩ := decode_u32_inv hv
                        subst hr2 hr
                        have hx : x < 256 := hbs x (by simp)
                        have hy : y < 256 := hbs y (by simp)
                        simp only [List.length_cons, List.length_nil]
                        split_ifs <;> omega
                      · by_cases hb11 : b = 0x88
                        · -- 0x88: u8 id, idx = 0
                          subst hb11
                          simp [decode_component_idx, Option.bind_eq_some, Option.map_eq_some',
                            Prod.mk.injEq, ComponentIdx.mk.injEq] at hdec
                          obtain ⟨a, hu, hbid, hbidx⟩ := hdec
                          have hr := decode_u8_inv hu
                          subst hr
                          have ha : a < 256 := hbs a (by simp)
                          simp only [List.length_cons, List.length_nil]
                          split_ifs <;> omega
                        · by_cases hb12 : b = 0x89
                          · -- 0x89: u16 id, idx = 0
                            subst hb12
                            simp [decode_component_idx, Option.bind_eq_some, Option.map_eq_some',
                              Prod.mk.injEq, ComponentIdx.mk.injEq] at hdec
                            obtain ⟨a, hu, hbid, hbidx⟩ := hdec
                            obtain ⟨x, y, hr, hval⟩ := decode_u16_inv hu
                            subst hr
                            simp only [List.length_cons, List.length_nil]
                            split_ifs <;> omega
                          · by_cases hb13 : b < 0xc0
                            · -- 0x8a–0xbf: reserved, decode error
                              simp [decode_component_idx, hb1, hb2, hb3, hb4,
                                hb5, hb6, hb7, hb8, hb9, hb10, hb11, hb12,
                                hb13] at hdec
                            · -- 0xc0–0xff: 6-bit id, idx = 0
                              simp [decode_component_idx, hb1, hb2, hb3, hb4,
                                hb5, hb6, hb7, hb8, hb9, hb10, hb11, hb12,
                                hb13, Prod.mk.injEq, ComponentIdx.mk.injEq] at hdec
                              obtain ⟨⟨hbid, hbidx⟩, hr⟩ := hdec
                              subst hr
                              simp only [List.length_cons, List.length_nil]
                              split_ifs <;> omega

/-- C8: for every `(id, idx)` pair in range, `encode_component_idx`
deterministically emits exactly one byte sequence; decoding it consumes
exactly those bytes and returns the same pair; and no other byte-valued
sequence decoding to that pair is shorter — the emitted form is the
shortest tag form containing the pair. -/
theorem component_idx_codec_canonical (id idx : Nat) (hid : id < 0x10000)
    (hidx : idx < 0x100000000) :
    ∃ enc, component_idx_bytes ⟨id, idx⟩ = some enc ∧
      (∀ rest, decode_component_idx (enc ++ rest) = some (⟨id, idx⟩, rest)) ∧
      (∀ bs, (∀ b ∈ bs, b < 256) →
        decode_component_idx bs = some (⟨id, idx⟩, []) →
        enc.length ≤ bs.length) := by
  refine ⟨_, component_idx_bytes_eq id idx, ?_, ?_⟩
  · intro rest
    exact component_idx_round_trip id idx hid hidx _
      (component_idx_bytes_eq id idx) rest
  · intro bs hbs hdec
    exact component_idx_minimal id idx _ (component_idx_bytes_eq id idx)
      bs hbs hdec

/-- Witness for C8 at `(id, idx) = (70, 300)`. -/
theorem component_idx_codec_canonical_witness :
    ∃ enc, component_idx_bytes ⟨70, 300⟩ = some enc ∧
      (∀ rest, decode_component_idx (enc ++ rest) = some (⟨70, 300⟩, rest)) ∧
      (∀ bs, (∀ b ∈ bs, b < 256) →
        decode_component_idx bs = some (⟨70, 300⟩, []) →
        enc.length ≤ bs.length) :=
  component_idx_codec_canonical 70 300 (by decide) (by decide)

/-! ### C1: the entity-id rewrite performed by `encode_world` -/

theorem map_entity_ids_list_length (t : EntityId → EntityId)
    (vs : List Value) : (map_entity_ids_list t vs).length = vs.length := by
  induction vs with
  | nil => rfl
  | cons v vs ih => simp [map_entity_ids_list, ih]

mutual

/-- Encoding a value under an entity-id transform is the same as first
rewriting every entity id inside the value and then encoding with the
identity transform: the transform is applied to each id right before it
is serialized, and nowhere else. -/
theorem encode_value_map_eids (fm : FloatModel) {σ : Type} (sink : Sink σ)
    (t : EntityId → EntityId) : (v : Value) →
    encode_value fm sink t v = encode_value fm sink idT (map_entity_ids t v)
  | .Bool b => by cases b <;> rfl
  | .Int i => rfl
  | .Float x => rfl
  | .Bytes bs => rfl
  | .Array vs => by
    simp only [encode_value, map_entity_ids, map_entity_ids_list_length,
      encode_values_map_eids fm sink t vs]
  | .Maybe none => rfl
  | .Maybe (some v) => by
    simp only [encode_value, map_entity_ids,
      encode_value_map_eids fm sink t v]
  | .EntityId id => rfl

/-- `encode_value_map_eids` for the element loop of an array. -/
theorem encode_values_map_eids (fm : FloatModel) {σ : Type} (sink : Sink σ)
    (t : EntityId → EntityId) : (vs : List Value) →
    encode_values fm sink t vs =
      encode_values fm sink idT (map_entity_ids_list t vs)
  | [] => rfl
  | v :: vs => by
    simp only [encode_values, map_entity_ids_list,
      encode_value_map_eids fm sink t v, encode_values_map_eids fm sink t vs]

end

/-- Pointwise behaviour of the rewrite closure on `Idx` ids: in-range ids
of live entities become the entity's packed index, out-of-range ids and
ids of deleted entities become `Invalid`. -/
theorem transform_id_spec (a : EntityArray) (i : Nat) :
    transform_id a.packed_idxs (.Idx i) =
      match a.entries[i]? with
      | some e =>
        if e.is_deleted then .Invalid else .Idx (alive_rank a.entries i)
      | none => .Invalid := by
  have h := packed_idxsGo_getElem? a.entries 0 i
  rw [EntityArray.packed_idxs] at *
  cases he : a.entries[i]? with
  | none =>
    rw [he] at h
    simp only [Option.map_none'] at h
    simp [transform_id, h]
  | some e =>
    rw [he] at h
    simp only [Option.map_some'] at h
    by_cases hd : e.is_deleted
    · simp [transform_id, h, hd]
    · simp [transform_id, h, hd]

theorem emits_wr (bs : List Nat) : Emits (wr byteSink bs) bs := fun _ => rfl

theorem emits_eok : Emits (eok : EncM (List Nat)) [] := fun s => by
  simp [eok]

theorem emits_eseq {m1 m2 : EncM (List Nat)} {b1 b2 : List Nat}
    (h1 : Emits m1 b1) (h2 : Emits m2 b2) : Emits (eseq m1 m2) (b1 ++ b2) :=
  fun s => by simp [eseq, h1 s, h2 (s ++ b1)]

theorem emits_dropseq {m1 m2 : EncM (List Nat)} {b1 b2 : List Nat}
    (h1 : Emits m1 b1) (h2 : Emits m2 b2) : Emits (dropseq m1 m2) (b1 ++ b2) :=
  fun s => by simp [dropseq, h1 s, h2 (s ++ b1)]

theorem emits_bytes {m : EncM (List Nat)} {b : List Nat} (h : Emits m b) :
    (m []).map Prod.fst = some b := by
  rw [h []]
  simp

theorem emits_encode_component_idx (ci : ComponentIdx) :
    ∃ b, Emits (encode_component_idx byteSink ci) b := by
  unfold encode_component_idx
  cases IdScale.from_id ci.id <;> cases IdxScale.from_idx ci.idx <;>
    exact ⟨_, by first
      | exact emits_wr _
      | exact emits_eseq (emits_wr _) (emits_wr _)
      | exact emits_eseq (emits_wr _) (emits_eseq (emits_wr _) (emits_wr _))⟩

theorem emits_encode_component_idxs (cs : List ComponentIdx) :
    ∃ b, Emits (encode_component_idxs byteSink cs) b := by
  induction cs with
  | nil => exact ⟨_, emits_eok⟩
  | cons c cs ih =>
    obtain ⟨b1, h1⟩ := emits_encode_component_idx c
    obtain ⟨b2, h2⟩ := ih
    exact ⟨_, emits_eseq h1 h2⟩

theorem emits_encode_entity_data (d : EntityData) :
    ∃ b, Emits (encode_entity_data byteSink d) b := by
  obtain ⟨b2, h2⟩ := emits_encode_component_idxs d.components
  unfold encode_entity_data
  split_ifs
  · exact ⟨_, emits_eseq (emits_wr _) h2⟩
  · exact ⟨_, emits_eseq (emits_eseq (emits_wr _) (emits_wr _)) h2⟩

theorem emits_encode_entity_loop (es : List EntityData) :
    Emits (encode_entity_loop byteSink es)
      ((es.filter fun e => !e.is_deleted).flatMap
        (fun e => (entity_data_bytes e).getD [])) := by
  induction es with
  | nil => simpa [encode_entity_loop] using emits_eok
  | cons e es ih =>
    by_cases hd : e.is_deleted
    · simpa [encode_entity_loop, hd, List.filter_cons] using ih
    · obtain ⟨b, hb⟩ := emits_encode_entity_data e
      have hbb : entity_data_bytes e = some b := emits_bytes hb
      simp only [encode_entity_loop, hd, if_false, List.filter_cons,
        Bool.not_eq_true', Bool.not_false, if_true, List.flatMap_cons, hbb,
        Option.getD_some]
      exact emits_dropseq hb ih

theorem emits_encode_entity_array (a : EntityArray) :
    Emits (encode_entity_array byteSink a)
      (strBytes "ENTITIES " ++ decimal (alive_count a.entries) ++ [10] ++
        ((a.entries.filter fun e => !e.is_deleted).flatMap
          (fun e => (entity_data_bytes e).getD []))) := by
  have h := emits_eseq
    (emits_wr (strBytes "ENTITIES " ++
      decimal (a.entries.countP fun e => !e.is_deleted) ++ [10]))
    (emits_encode_entity_loop a.entries)
  simpa [encode_entity_array, alive_count, List.append_assoc] using h

mutual

/-- On the perfect sink, encoding a representable value writes some byte
sequence (the panic branches are unreachable). -/
theorem emits_encode_value (fm : FloatModel) (t : EntityId → EntityId) :
    (v : Value) → value_wf v = true →
    ∃ b, Emits (encode_value fm byteSink t v) b
  | .Bool b, _ => by cases b <;> exact ⟨_, emits_wr _⟩
  | .Int i, _ => by
    simp only [encode_value]
    split_ifs <;>
      first
      | exact ⟨_, emits_wr _⟩
      | exact ⟨_, emits_eseq (emits_wr _) (emits_wr _)⟩
  | .Float x, _ => by
    simp only [encode_value]
    split_ifs <;> exact ⟨_, emits_eseq (emits_wr _) (emits_wr _)⟩
  | .Bytes bs, hwf => by
    simp only [value_wf, decide_eq_true_eq] at hwf
    simp only [encode_value]
    split_ifs with h1 h2
    · exact ⟨_, emits_eseq (emits_wr _) (emits_wr _)⟩
    · exact ⟨_, emits_eseq (emits_wr _) (emits_wr _)⟩
    · exact ⟨_, emits_eseq (emits_eseq (emits_wr _) (emits_wr _)) (emits_wr _)⟩
  | .Array vs, hwf => by
    simp only [value_wf, Bool.and_eq_true, decide_eq_true_eq] at hwf
    obtain ⟨hlen, hvs⟩ := hwf
    obtain ⟨bv, hbv⟩ := emits_encode_values fm t vs hvs
    simp only [encode_value]
    split_ifs with h1 h2
    · exact ⟨_, emits_eseq (emits_wr _) hbv⟩
    · exact ⟨_, emits_eseq (emits_wr _) hbv⟩
    · exact ⟨_, emits_eseq (emits_eseq (emits_wr _) (emits_wr _)) hbv⟩
  | .Maybe none, _ => ⟨_, emits_wr _⟩
  | .Maybe (some v), hwf => by
    obtain ⟨b, hb⟩ := emits_encode_value fm t v hwf
    exact ⟨_, emits_eseq (emits_wr _) hb⟩
  | .EntityId id, _ => by
    cases hti : t id with
    | Invalid =>
      refine ⟨[0xb1], ?_⟩
      simp only [encode_value, hti]
      exact emits_wr _
    | Idx i =>
      simp only [encode_value, hti]
      split_ifs <;>
        first
        | exact ⟨_, emits_wr _⟩
        | exact ⟨_, emits_eseq (emits_wr _) (emits_wr _)⟩

/-- `emits_encode_value` for the element loop of an array. -/
theorem emits_encode_values (fm : FloatModel) (t : EntityId → EntityId) :
    (vs : List Value) → values_wf vs = true →
    ∃ b, Emits (encode_values fm byteSink t vs) b
  | [], _ => ⟨_, emits_eok⟩
  | v :: vs, hwf => by
    simp only [values_wf, Bool.and_eq_true] at hwf
    obtain ⟨b1, h1⟩ := emits_encode_value fm t v hwf.1
    obtain ⟨b2, h2⟩ := emits_encode_values fm t vs hwf.2
    exact ⟨_, emits_eseq h1 h2⟩

end

theorem emits_write_fields (fs : List String) :
    ∃ b, Emits (write_fields byteSink fs) b := by
  induction fs with
  | nil => exact ⟨_, emits_eok⟩
  | cons f fs ih =>
    obtain ⟨b, hb⟩ := ih
    exact ⟨_, emits_eseq (emits_eseq (emits_wr _) (emits_wr _)) hb⟩

theorem emits_encode_component_array (fm : FloatModel)
    (t : EntityId → EntityId) (c : ComponentArray)
    (hwf : values_wf c.values = true) :
    ∃ b, Emits (encode_component_array fm byteSink t c) b := by
  obtain ⟨b1, h1⟩ := emits_write_fields c.scheme
  obtain ⟨b2, h2⟩ := emits_encode_values fm t c.values hwf
  exact ⟨_, emits_eseq (emits_wr _) (emits_eseq h1 (emits_eseq (emits_wr _) h2))⟩

theorem emits_encode_global_component (fm : FloatModel)
    (t : EntityId → EntityId) (g : GlobalComponent)
    (hwf : values_wf g.values = true) :
    ∃ b, Emits (encode_global_component fm byteSink t g) b := by
  obtain ⟨b1, h1⟩ := emits_write_fields g.scheme
  obtain ⟨b2, h2⟩ := emits_encode_values fm t g.values hwf
  exact ⟨_, emits_eseq (emits_wr _) (emits_eseq h1 (emits_eseq (emits_wr _) h2))⟩

theorem emits_encode_component_loop (fm : FloatModel)
    (t : EntityId → EntityId) :
    (cs : List ComponentArray) →
    (∀ c ∈ cs, values_wf c.values = true) →
    Emits (encode_component_loop fm byteSink t cs)
      (cs.flatMap fun c => (component_array_bytes fm t c).getD [] ++ [10])
  | [], _ => by simpa [encode_component_loop] using emits_eok
  | c :: cs, h => by
    obtain ⟨b, hb⟩ := emits_encode_component_array fm t c (h c (by simp))
    have hbb : component_array_bytes fm t c = some b := emits_bytes hb
    have ih := emits_encode_component_loop fm t cs
      (fun c2 hc2 => h c2 (by simp [hc2]))
    simp only [encode_component_loop, List.flatMap_cons, hbb, Option.getD_some]
    have h2 := emits_eseq hb (emits_eseq (emits_wr [10]) ih)
    simpa [List.append_assoc] using h2

/-- C1: when a world is encoded, (1) the rewrite closure built from
`packed_idxs` maps an in-range id of a live entity to `Idx` of that
entity's packed index and everything else to `Invalid`; (2) encoding any
value under that closure equals encoding the value with every embedded
entity id (recursively, through arrays and `Maybe`) already rewritten;
and (3) the emitted bytes consist of the `WORLD` header, every component
array and the global component encoded *under the closure*, and an
`ENTITIES` block whose written count is the number of non-deleted
entities and whose body is the concatenation over non-deleted entities
only — deleted entities contribute nothing. -/
theorem encode_world_rewrites_entity_ids (fm : FloatModel) (w : World)
    (hwf : world_wf w = true) :
    (∀ i, transform_id w.entities.packed_idxs (.Idx i) =
      match w.entities.entries[i]? with
      | some e =>
        if e.is_deleted then .Invalid
        else .Idx (alive_rank w.entities.entries i)
      | none => .Invalid) ∧
    (∀ (σ : Type) (sink : Sink σ) (v : Value),
      encode_value fm sink (transform_id w.entities.packed_idxs) v =
        encode_value fm sink idT
          (map_entity_ids (transform_id w.entities.packed_idxs) v)) ∧
    world_bytes fm w = some (
      strBytes "WORLD " ++ decimal (w.components.countP Option.isSome) ++
        [32] ++ decimal (lastSomeIdx w.components) ++ [10] ++
      ((w.components.filterMap id).flatMap fun c =>
        (component_array_bytes fm (transform_id w.entities.packed_idxs)
          c).getD [] ++ [10]) ++
      (global_component_bytes fm (transform_id w.entities.packed_idxs)
        w.global).getD [] ++ [10] ++
      strBytes "ENTITIES " ++ decimal (alive_count w.entities.entries) ++
        [10] ++
      ((w.entities.entries.filter fun e => !e.is_deleted).flatMap fun e =>
        (entity_data_bytes e).getD [])) := by
  refine ⟨transform_id_spec w.entities,
    fun σ sink v => encode_value_map_eids fm sink _ v, ?_⟩
  simp only [world_wf, Bool.and_eq_true, List.all_eq_true] at hwf
  obtain ⟨hcs, hg⟩ := hwf
  have hloop := emits_encode_component_loop fm
    (transform_id w.entities.packed_idxs) (w.components.filterMap id) hcs
  obtain ⟨bg, hbg⟩ := emits_encode_global_component fm
    (transform_id w.entities.packed_idxs) w.global hg
  have hbgb : global_component_bytes fm
      (transform_id w.entities.packed_idxs) w.global = some bg :=
    emits_bytes hbg
  have hent := emits_encode_entity_array w.entities
  have hall := emits_eseq
    (emits_wr (strBytes "WORLD " ++
      decimal (w.components.countP Option.isSome) ++ [32] ++
      decimal (lastSomeIdx w.components) ++ [10]))
    (emits_eseq hloop (emits_eseq hbg (emits_eseq (emits_wr [10]) hent)))
  have hw : world_bytes fm w =
      some ((strBytes "WORLD " ++
        decimal (w.components.countP Option.isSome) ++ [32] ++
        decimal (lastSomeIdx w.components) ++ [10]) ++
        (((w.components.filterMap id).flatMap fun c =>
          (component_array_bytes fm (transform_id w.entities.packed_idxs)
            c).getD [] ++ [10]) ++
        (bg ++ ([10] ++
          (strBytes "ENTITIES " ++ decimal (alive_count w.entities.entries)
            ++ [10] ++
          ((w.entities.entries.filter fun e => !e.is_deleted).flatMap
            fun e => (entity_data_bytes e).getD [])))))) :=
    emits_bytes hall
  rw [hw, hbgb]
  simp [List.append_assoc]

/-- Witness for C1 at the spec's concrete scenario: three entities with
entity 1 deleted; a stored reference to entity 2 is rewritten to packed
index 1. -/
theorem encode_world_rewrites_entity_ids_witness :
    transform_id
      (EntityArray.packed_idxs ⟨[⟨false, []⟩, ⟨true, []⟩, ⟨false, []⟩]⟩)
      (.Idx 2) = .Idx 1 :=
  ((encode_world_rewrites_entity_ids fm0
    ⟨[some ⟨"ref", 0, ["target"], [.EntityId (.Idx 2)]⟩], ⟨[], []⟩,
      ⟨[⟨false, []⟩, ⟨true, []⟩, ⟨false, []⟩]⟩⟩
    (by decide)).1 2).trans (by decide)

end SerialEcs
